import Mathlib

/-!
Shallow embedding of the reddit-scraper repository's core logic:

* the comment-forest summary extractor
  (`src/scripts/utils/metadata_utils.py::extract_article_summary_from_comments`,
  duplicated as `src/utils.py::extract_article_summary`),
* the URL resolution policy (`src/scripts/process_raw.py::process_raw_data`),
* the identifier & metadata resolver
  (`src/scripts/utils/metadata_utils.py::get_doi_from_url`,
  `fetch_article_metadata`, `closest_match`),
* the record enrichment driver (`src/scripts/fetch_metadata.py::fetch_metadata`).

Pure Python functions become Lean functions on `List Char` / `String`;
external collaborators (the reddit client, the CrossRef client, the page
fetcher) become explicit environment records; Python exceptions become
`Except` values.
-/

/-! ## Comment tree model

A comment node carries `is_submitter`, `body`, and `replies` in reply order,
exactly the dictionary shape documented in
`extract_article_summary_from_comments`. -/

structure Comment where
  is_submitter : Bool
  body : String
  replies : List Comment
deriving Repr

mutual

/-- Structural size of a comment tree: `1` plus the sizes of all replies. -/
def Comment.csize : Comment → Nat
  | .mk _ _ replies => 1 + Comment.csizeList replies

/-- Structural size of a list of comment trees. -/
def Comment.csizeList : List Comment → Nat
  | [] => 0
  | c :: cs => Comment.csize c + Comment.csizeList cs

end

/-- The queue traversal of `extract_article_summary_from_comments`
(lines 68-75 of `src/scripts/utils/metadata_utils.py`): pop the front of the
deque; if the popped comment is by the submitter, record its body and
`extendleft` its replies.  Python's `deque.extendleft` appends the replies to
the left one by one, so the front of the queue receives them in **reversed**
order: the new queue is `replies.reverse ++ rest`.  The recursion is
fuelled: a submitter pop replaces one node by its strictly smaller replies
and a non-submitter pop drops a whole subtree, so fuel equal to the total
structural size of the forest always runs the traversal to completion. -/
def collectBodiesFuel : Nat → List Comment → List String
  | 0, _ => []
  | _ + 1, [] => []
  | fuel + 1, c :: queue =>
    if c.is_submitter then
      c.body :: collectBodiesFuel fuel (c.replies.reverse ++ queue)
    else
      collectBodiesFuel fuel queue

/-- The deque traversal of the summary extractor, with sufficient fuel. -/
def collectBodies (comments : List Comment) : List String :=
  collectBodiesFuel (Comment.csizeList comments) comments

/-- The separator `'\n\n∴\n\n'` used by `'\n\n∴\n\n'.join(summary)`. -/
def summarySep : String := "\n\n∴\n\n"

/-! ### A model of `html.unescape`

The source post-processes the joined summary with the Python standard-library
function `html.unescape`.  The model below covers the core of that external
function: decimal and hexadecimal numeric character references and a table of
common named entities, each with and without the trailing semicolon (longer
spellings tried first, as CPython does).  The full HTML5 entity table of the
standard library is not reproduced. -/

def namedEntityTable : List (String × Char) :=
  [("amp;", '&'), ("lt;", '<'), ("gt;", '>'), ("quot;", '"'), ("apos;", '\x27'),
   ("nbsp;", ' '), ("amp", '&'), ("lt", '<'), ("gt", '>'), ("quot", '"')]

def hexDigitVal (c : Char) : Option Nat :=
  if '0' ≤ c ∧ c ≤ '9' then some (c.toNat - '0'.toNat)
  else if 'a' ≤ c ∧ c ≤ 'f' then some (c.toNat - 'a'.toNat + 10)
  else if 'A' ≤ c ∧ c ≤ 'F' then some (c.toNat - 'A'.toNat + 10)
  else none

def decDigitVal (c : Char) : Option Nat :=
  if '0' ≤ c ∧ c ≤ '9' then some (c.toNat - '0'.toNat) else none

/-- Turn a code point into a character, substituting U+FFFD for values that
are not Unicode scalar values (the stdlib substitutes for out-of-range and
surrogate references). -/
def charOfCodepoint (n : Nat) : Char :=
  if h : n < 0xd800 ∨ (0xdfff < n ∧ n < 0x110000) then Char.ofNatAux n h else '�'

/-- Match one character reference right after a `&`; return the decoded
character and the number of input characters consumed (not counting the `&`). -/
def matchCharref (cs : List Char) : Option (Char × Nat) :=
  match cs with
  | '#' :: rest =>
    match rest with
    | x :: rest2 =>
      if x = 'x' ∨ x = 'X' then
        let ds := rest2.takeWhile (fun c => (hexDigitVal c).isSome)
        if ds.length = 0 then none
        else
          let n := ds.foldl (fun acc c => acc * 16 + ((hexDigitVal c).getD 0)) 0
          let consumed := 2 + ds.length
          let withSemi := if (rest2.drop ds.length).head? = some ';' then consumed + 1 else consumed
          some (charOfCodepoint n, withSemi)
      else
        let ds := ('#' :: rest).drop 1 |>.takeWhile (fun c => (decDigitVal c).isSome)
        if ds.length = 0 then none
        else
          let n := ds.foldl (fun acc c => acc * 10 + ((decDigitVal c).getD 0)) 0
          let consumed := 1 + ds.length
          let withSemi := if (rest.drop ds.length).head? = some ';' then consumed + 1 else consumed
          some (charOfCodepoint n, withSemi)
    | [] => none
  | _ =>
    namedEntityTable.findSome? (fun ent =>
      if ent.1.data.isPrefixOf cs then some (ent.2, ent.1.length) else none)

/-- Fuelled scanner for `htmlUnescape`; each step consumes at least one input
character, so fuel equal to the input length is exact. -/
def htmlUnescapeAux : Nat → List Char → List Char
  | 0, cs => cs
  | _ + 1, [] => []
  | fuel + 1, '&' :: rest =>
    match matchCharref rest with
    | some (c, n) => c :: htmlUnescapeAux fuel (rest.drop n)
    | none => '&' :: htmlUnescapeAux fuel rest
  | fuel + 1, c :: rest => c :: htmlUnescapeAux fuel rest

/-- Model of the Python standard-library `html.unescape` (see the note
above). -/
def htmlUnescape (s : String) : String :=
  ⟨htmlUnescapeAux s.data.length s.data⟩

/-- `extract_article_summary_from_comments`
(`src/scripts/utils/metadata_utils.py` lines 41-78; the identical
`extract_article_summary` is in `src/utils.py` lines 22-59): traverse the
forest with a deque as in `collectBodies`, join the recorded bodies with
`summarySep`, and apply `html.unescape`. -/
def extract_article_summary_from_comments (comments : List Comment) : String :=
  htmlUnescape (String.intercalate summarySep (collectBodies comments))

/-! ### The reference procedure of the claim

C1 describes a reference traversal that re-inserts replies at the front of
the queue *preserving their original order*.  It is embedded verbatim here so
it can be compared with the code's traversal. -/

/-- The claim's reference traversal: identical to `collectBodies` except that
the popped comment's replies are re-inserted at the front of the queue in
their original order. -/
def refCollectBodiesOrderedFuel : Nat → List Comment → List String
  | 0, _ => []
  | _ + 1, [] => []
  | fuel + 1, c :: queue =>
    if c.is_submitter then
      c.body :: refCollectBodiesOrderedFuel fuel (c.replies ++ queue)
    else
      refCollectBodiesOrderedFuel fuel queue

/-- The claim's reference traversal, with sufficient fuel. -/
def refCollectBodiesOrdered (comments : List Comment) : List String :=
  refCollectBodiesOrderedFuel (Comment.csizeList comments) comments

/-- The claim's reference Summary Extractor: the order-preserving traversal,
joined with the literal separator and HTML-entity decoded. -/
def refSummaryOrdered (comments : List Comment) : String :=
  htmlUnescape (String.intercalate summarySep (refCollectBodiesOrdered comments))

/-- The amended reference traversal: as the claim's procedure, but replies
are re-inserted at the front of the queue in reversed order (the semantics of
`deque.extendleft`). -/
def refCollectBodiesReversedFuel : Nat → List Comment → List String
  | 0, _ => []
  | _ + 1, [] => []
  | fuel + 1, c :: queue =>
    if c.is_submitter then
      c.body :: refCollectBodiesReversedFuel fuel (c.replies.reverse ++ queue)
    else
      refCollectBodiesReversedFuel fuel queue

/-- The amended reference traversal, with sufficient fuel. -/
def refCollectBodiesReversed (comments : List Comment) : List String :=
  refCollectBodiesReversedFuel (Comment.csizeList comments) comments

/-- The amended reference Summary Extractor. -/
def refSummaryReversed (comments : List Comment) : String :=
  htmlUnescape (String.intercalate summarySep (refCollectBodiesReversed comments))

mutual

/-- Whether a comment tree contains a submitter-authored node anywhere. -/
def Comment.hasSubmitter : Comment → Bool
  | .mk s _ replies => s || Comment.hasSubmitterList replies

/-- Whether a comment forest contains a submitter-authored node anywhere. -/
def Comment.hasSubmitterList : List Comment → Bool
  | [] => false
  | c :: cs => Comment.hasSubmitter c || Comment.hasSubmitterList cs

end

/-! ## Text scanning helpers -/

/-- ASCII model of Python's regex class `\s`. -/
def isSpaceChar (c : Char) : Bool :=
  c == ' ' || c == '\t' || c == '\n' || c == '\r' || c == '\x0b' || c == '\x0c'

/-- Does the character list start with `http://` or `https://` followed by at
least one character (the regexes in the source all use `https?://\S+`)? -/
def startsHttpUrl (cs : List Char) : Bool :=
  ("http://".data.isPrefixOf cs && 8 ≤ cs.length) ||
    ("https://".data.isPrefixOf cs && 9 ≤ cs.length)

/-- Try to read a Markdown link starting just after a `[`: a non-empty label
up to the first `]`, then `(`, then a URL (scheme `http://` or `https://`,
no whitespace, no `)`), then `)`.  Returns the label, the URL and the
remaining input. -/
def parseMarkdownLink (cs : List Char) : Option (String × String × List Char) :=
  let lbl := cs.takeWhile (fun c => c != ']')
  if lbl.length = 0 then none
  else
    match cs.drop lbl.length with
    | ']' :: '(' :: rest =>
      let url := rest.takeWhile (fun c => c != ')' && !isSpaceChar c)
      if startsHttpUrl url then
        match rest.drop url.length with
        | ')' :: rest2 => some (⟨lbl⟩, ⟨url⟩, rest2)
        | _ => none
      else none
    | _ => none

/-- Fuelled scanner behind `extract_markdown_urls`; every step consumes at
least one character, so fuel equal to the input length is exact. -/
def scanMarkdownUrls : Nat → List Char → List (String × String)
  | 0, _ => []
  | _ + 1, [] => []
  | fuel + 1, '[' :: rest =>
    match parseMarkdownLink rest with
    | some (lbl, url, rest2) => (lbl, url) :: scanMarkdownUrls fuel rest2
    | none => scanMarkdownUrls fuel rest
  | fuel + 1, _ :: rest => scanMarkdownUrls fuel rest

/-- Modelled from the spec: `src/scripts/process_raw.py` calls
`metadata_utils.extract_markdown_urls`, whose definition is not in the source
tree (only its callers are).  Per the spec (§4.3 and the glossary) it returns
the Markdown links `[label](url)` occurring in the text, in order, as
`(label, url)` pairs; as in the single-link extractor `extract_markdown_url`
that *is* in the source, a link's URL must start with `http://` or
`https://` and contains no whitespace. -/
def extract_markdown_urls (text : String) : List (String × String) :=
  scanMarkdownUrls text.data.length text.data

/-- Fuelled scanner behind `extract_urls`. -/
def scanUrls : Nat → List Char → List String
  | 0, _ => []
  | _ + 1, [] => []
  | fuel + 1, c :: rest =>
    if startsHttpUrl (c :: rest) then
      let url := (c :: rest).takeWhile (fun x => !isSpaceChar x)
      (⟨url⟩ : String) :: scanUrls fuel ((c :: rest).drop url.length)
    else scanUrls fuel rest

/-- Modelled from the spec: `src/scripts/process_raw.py` calls
`metadata_utils.extract_urls`, whose definition is not in the source tree
(only its callers are).  Per the spec (§4.3 case 1a) it returns the bare URLs
found in the text, in order: maximal whitespace-free runs starting with
`http://` or `https://`. -/
def extract_urls (text : String) : List String :=
  scanUrls text.data.length text.data

/-- Python's `description.strip('*_')`: remove leading and trailing `*` and
`_` characters. -/
def stripStarUnderscore (s : String) : String :=
  ⟨((s.data.dropWhile (fun c => c == '*' || c == '_')).reverse.dropWhile
    (fun c => c == '*' || c == '_')).reverse⟩

/-- `extract_paper_type_from_title` (`src/scripts/utils/metadata_utils.py`
lines 258-277); `String.toLower` is the ASCII model of `str.lower`. -/
def extract_paper_type_from_title (title : String) : String :=
  let t := title.toLower
  let preprintStrs := ["[preprint]", "[pre-print]", "[pre print]"]
  let thesisStrs := ["[thesis]", "[dissertation]"]
  if preprintStrs.any (fun p => t.startsWith p) || preprintStrs.any (fun p => t.endsWith p) then
    "preprint"
  else if thesisStrs.any (fun p => t.startsWith p) || thesisStrs.any (fun p => t.endsWith p) then
    "thesis"
  else "paper"

/-! ## The submission record and the URL resolution policy -/

/-- Model of a Python exception that escapes the embedded code. -/
inductive PyErr where
  | typeError
  | valueError
  | attributeError
deriving Repr, DecidableEq

/-- A candidate bibliographic record, as handed to `closest_match`: a
dictionary with an optional `title` key holding a list of title strings.
`payload` stands for the record's remaining fields. -/
structure Candidate where
  title : Option (List String)
  payload : Nat
deriving Repr, DecidableEq

/-- The `message` payload of a CrossRef response, as used by
`fetch_metadata`: `items` is present exactly for multi-candidate search
results; `payload` stands for the remaining fields. -/
structure CrMessage where
  items : Option (List Candidate)
  payload : Nat
deriving Repr, DecidableEq

/-- What the enrichment driver stores in the `_metadata` column: either the
whole `message` dictionary or the disambiguated candidate. -/
inductive StoredMeta where
  | message (m : CrMessage)
  | candidate (c : Candidate)
deriving Repr, DecidableEq

/-- A submission record (one JSON object of the persisted record list).
Input fields come from the fetch stage; `Option` on a derived field means
the field is absent or `null` (NaN). -/
structure Submission where
  title : String
  selftext : String
  url : String
  permalink : String
  link_flair_text : Option String
  comments : Option (List Comment)
  is_research : Option Bool
  paper_type : Option String
  real_url : Option (Option String)
  summary : Option String
  crosspost_selftext : Option String
  metadata : Option StoredMeta
  metadata_error : Option Bool
deriving Repr

/-- External collaborator of case 2 of the policy: the reddit client's
`reddit.submission(url=...).selftext`. -/
structure RedditEnv where
  crosspostSelftext : String → String

/-- The flairs marking non-research submissions
(`src/scripts/process_raw.py` line 50). -/
def non_research_flairs : List String :=
  ["Active Research", "Mod Announcement", "Mod News", "Poll", "Requests"]

/-- The URL resolution policy: the three-way branch of `process_raw_data`
(`src/scripts/process_raw.py` lines 61-100).  Writes `_real_url` and
`_summary` (and `_crosspost_selftext` in case 2).  Case 1b subscripts
`submission['comments']` without a `None` guard, so absent comments raise a
`TypeError` there; case 3 uses `submission['comments'] or []`. -/
def resolveUrlAndSummary (env : RedditEnv) (s : Submission) :
    Except PyErr Submission :=
  if s.url = "https://www.reddit.com" ++ s.permalink then
    match extract_markdown_urls s.selftext with
    | [] =>
      let titleUrls := extract_urls s.title
      .ok { s with real_url := some titleUrls.head?, summary := some s.selftext }
    | (d, u) :: rest =>
      if s.selftext = "[" ++ d ++ "](" ++ u ++ ")" then
        match s.comments with
        | none => .error .typeError
        | some cs =>
          .ok { s with real_url := some (some u),
                       summary := some (extract_article_summary_from_comments cs) }
      else
        let chosen :=
          match ((d, u) :: rest).find? (fun du => stripStarUnderscore du.1 = du.2) with
          | some du => du.2
          | none => u
        .ok { s with real_url := some (some chosen), summary := some s.selftext }
  else if s.url.startsWith "/r/" then
    let cp := env.crosspostSelftext ("https://www.reddit.com" ++ s.url)
    let realUrl : Option String :=
      match extract_markdown_urls cp with
      | (_, u) :: _ => some u
      | [] => (extract_urls cp).head?
    .ok { s with crosspost_selftext := some cp, real_url := some realUrl,
                 summary := some cp }
  else
    .ok { s with real_url := some (some s.url),
                 summary := some (extract_article_summary_from_comments (s.comments.getD [])) }

/-- The per-submission body of `process_raw_data`
(`src/scripts/process_raw.py` lines 52-100): set `_is_research` from the
flair (`None` is not a member of the tuple, hence research), stop there for
non-research records, otherwise derive `_paper_type` and run the URL
resolution policy. -/
def processSubmission (env : RedditEnv) (s : Submission) :
    Except PyErr Submission :=
  let isRes : Bool := decide (s.link_flair_text ∉ non_research_flairs.map some)
  let s1 := { s with is_research := some isRes }
  if isRes then
    resolveUrlAndSummary env { s1 with paper_type := some (extract_paper_type_from_title s1.title) }
  else
    .ok s1

/-! ## Sequence-matching similarity (model of `difflib.SequenceMatcher`)

`closest_match` scores candidates with
`difflib.SequenceMatcher(None, target, title).ratio()`.  The model below
follows the CPython implementation: `b2j` with the autojunk popularity
heuristic, the `find_longest_match` dynamic program with its extension
loops (the junk set is empty because `isjunk` is `None`), the recursive
matching-blocks decomposition, and `ratio = 2*M/T` as a rational number. -/

/-- The `b2j` index of `SequenceMatcher.__chain_b`: for each element of `b`,
its indices in increasing order; when `len(b) ≥ 200`, "popular" elements
(count strictly above `len(b) // 100 + 1`) are dropped from the index. -/
def b2j (b : List Char) (c : Char) : List Nat :=
  if 200 ≤ b.length ∧ b.length / 100 + 1 < b.count c then []
  else (List.range b.length).filter (fun j => b.get? j = some c)

/-- The inner loop of `find_longest_match` over the occurrence list of
`a[i]` in `b` (increasing), threading the previous row `j2len`, the new row
`newj2len`, and the current best `(besti, bestj, bestsize)`. -/
def fllmInner (i blo bhi : Nat) :
    List Nat → (Nat → Nat) → (Nat → Nat) → Nat × Nat × Nat → (Nat → Nat) × (Nat × Nat × Nat)
  | [], _, newRow, best => (newRow, best)
  | j :: js, oldRow, newRow, best =>
    if j < blo then fllmInner i blo bhi js oldRow newRow best
    else if bhi ≤ j then (newRow, best)
    else
      let k := (if j = 0 then 0 else oldRow (j - 1)) + 1
      let newRow2 := fun x => if x = j then k else newRow x
      let best2 := if best.2.2 < k then (i + 1 - k, j + 1 - k, k) else best
      fllmInner i blo bhi js oldRow newRow2 best2

/-- The outer loop of `find_longest_match` over `i ∈ [alo, ahi)`. -/
def fllmOuter (a b : List Char) (blo bhi : Nat) :
    List Nat → (Nat → Nat) → Nat × Nat × Nat → Nat × Nat × Nat
  | [], _, best => best
  | i :: is2, row, best =>
    let occ := match a.get? i with
      | some c => b2j b c
      | none => []
    let (newRow, best2) := fllmInner i blo bhi occ row (fun _ => 0) best
    fllmOuter a b blo bhi is2 newRow best2

/-- One step of the `while` extension loops of `find_longest_match`,
downwards: extend the block by equal elements on the left.  The junk set is
empty (`isjunk` is `None`), so only the non-junk loops can fire and the junk
loops never do. -/
def extendLower (a b : List Char) (alo blo : Nat) :
    Nat → Nat × Nat × Nat → Nat × Nat × Nat
  | 0, best => best
  | fuel + 1, (besti, bestj, bestsize) =>
    if alo < besti ∧ blo < bestj ∧ a.get? (besti - 1) = b.get? (bestj - 1) ∧
        (a.get? (besti - 1)).isSome then
      extendLower a b alo blo fuel (besti - 1, bestj - 1, bestsize + 1)
    else (besti, bestj, bestsize)

/-- The upward extension loop of `find_longest_match`. -/
def extendUpper (a b : List Char) (ahi bhi : Nat) :
    Nat → Nat × Nat × Nat → Nat × Nat × Nat
  | 0, best => best
  | fuel + 1, (besti, bestj, bestsize) =>
    if besti + bestsize < ahi ∧ bestj + bestsize < bhi ∧
        a.get? (besti + bestsize) = b.get? (bestj + bestsize) ∧
        (a.get? (besti + bestsize)).isSome then
      extendUpper a b ahi bhi fuel (besti, bestj, bestsize + 1)
    else (besti, bestj, bestsize)

/-- `SequenceMatcher.find_longest_match(alo, ahi, blo, bhi)`. -/
def findLongestMatch (a b : List Char) (alo ahi blo bhi : Nat) : Nat × Nat × Nat :=
  let base := fllmOuter a b blo bhi ((List.range (ahi - alo)).map (fun k => alo + k))
    (fun _ => 0) (alo, blo, 0)
  let ext := extendLower a b alo blo base.1 base
  extendUpper a b ahi bhi (ahi - ext.1) ext

/-- Total size of matching blocks in `a[alo:ahi] × b[blo:bhi]`
(`get_matching_blocks`): the longest match plus, recursively, the matches to
its left and right.  Each recursive call is on a strictly smaller pair of
ranges, so fuel `ahi + bhi` suffices. -/
def matchingSum (a b : List Char) : Nat → Nat → Nat → Nat → Nat → Nat
  | 0, _, _, _, _ => 0
  | fuel + 1, alo, ahi, blo, bhi =>
    let (i, j, k) := findLongestMatch a b alo ahi blo bhi
    if k = 0 then 0
    else
      k + (if alo < i ∧ blo < j then matchingSum a b fuel alo i blo j else 0) +
        (if i + k < ahi ∧ j + k < bhi then matchingSum a b fuel (i + k) ahi (j + k) bhi else 0)

/-- `difflib.SequenceMatcher(None, sa, sb).ratio()`, as a rational: `2*M/T`
where `M` is the total matched size and `T` the total length; `1` when both
strings are empty (`_calculate_ratio`). -/
def sequenceRatio (sa sb : String) : ℚ :=
  let a := sa.data
  let b := sb.data
  if a.length + b.length = 0 then 1
  else (2 * matchingSum a b (a.length + b.length + 1) 0 a.length 0 b.length : ℚ) /
    (a.length + b.length : ℚ)

/-- `closest_match` (`src/scripts/utils/metadata_utils.py` lines 231-255):
fold over the choices and their title lists, keeping the first
strictly-higher-scoring candidate; return it only if the highest similarity
reached `min_similarity` (defaulting to `0.8` at the call sites). -/
def closest_match (target : String) (choices : List Candidate)
    (min_similarity : ℚ) : Option Candidate :=
  let best := choices.foldl (fun acc choice =>
    match choice.title with
    | none => acc
    | some titles => titles.foldl (fun acc2 t =>
        let similarity := sequenceRatio target t
        if acc2.2 < similarity then (some choice, similarity) else acc2) acc)
    ((none : Option Candidate), (0 : ℚ))
  if min_similarity ≤ best.2 then best.1 else none

/-! ## The record enrichment driver (`src/scripts/fetch_metadata.py`) -/

/-- The pandas coercion `astype(bool).fillna(False)` applied to the
`_is_research` and `_metadata_error` columns: a missing value (NaN) is truthy
under `astype(bool)`, so it coerces to `True` and `fillna` then has nothing
left to fill. -/
def coerceBoolColumn : Option Bool → Bool
  | some b => b
  | none => true

/-- The driver's row-selection mask
(`src/scripts/fetch_metadata.py` line 55):
`_is_research & _metadata.isna() & ~_metadata_error`. -/
def needsMetadataFetch (s : Submission) : Bool :=
  coerceBoolColumn s.is_research && s.metadata.isNone && !(coerceBoolColumn s.metadata_error)

/-- One iteration of the driver loop (`src/scripts/fetch_metadata.py`
lines 58-71) for a row, given the value `fetchRes` that
`fetch_article_metadata` returned for it: on `None` the `_metadata` cell is
(re)set to NaN and nothing else changes; on a result with `items` the closest
match is stored and `_metadata_error` records whether disambiguation failed;
on a result without `items` the result itself is stored.  Rows outside the
selection mask are untouched. -/
def fetchMetadataStep (fetchRes : Option CrMessage) (s : Submission) : Submission :=
  if needsMetadataFetch s then
    match fetchRes with
    | none => { s with metadata := none }
    | some msg =>
      match msg.items with
      | some its =>
        match closest_match s.title its (4 / 5 : ℚ) with
        | none => { s with metadata := none, metadata_error := some true }
        | some c => { s with metadata := some (.candidate c), metadata_error := some false }
      | none => { s with metadata := some (.message msg), metadata_error := some false }
  else s

/-! ## DOI extraction (`src/scripts/utils/metadata_utils.py` lines 21-25, 81-106)

`get_doi_from_url` is
`PATTERN_DOI_URL.fullmatch(requests.utils.unquote(url))` where
`PATTERN_DOI_URL = https?://\S+/(?P<doi>10.\d{4,9}/[-._;()/:\w]+)(/|\?.*)?`.
The matcher below reproduces the backtracking of `re.fullmatch`: the greedy
`\S+` prefers the longest prefix (so DOI candidates are tried right to
left), the digit run `\d{4,9}` can only match a complete run of 4-9 digits
(a shorter greedy choice would leave a digit where `/` is required), and the
greedy suffix class `[-._;()/:\w]+` shrinks until the optional
`(/|\?.*)` tail reaches the end of the string.  Character classes are the
ASCII models of `\s`, `\d`, `\w`; the unescaped `.` after `10` matches any
character except a newline. -/

/-- ASCII model of the regex class `\w`. -/
def isWordCharA (c : Char) : Bool := c.isAlphanum || c == '_'

/-- The character class `[-._;()/:\w]` of the DOI suffix. -/
def isDoiSuffixChar (c : Char) : Bool :=
  c == '-' || c == '.' || c == '_' || c == ';' || c == '(' || c == ')' ||
    c == '/' || c == ':' || isWordCharA c

/-- Can the rest of the input be consumed by `(/|\?.*)?` followed by the end
of the string? -/
def doiTailOk : List Char → Bool
  | [] => true
  | ['/'] => true
  | '?' :: q => q.all (fun c => c != '\n')
  | _ => false

/-- Match `10.\d{4,9}/[-._;()/:\w]+` at the start of `rest`, requiring the
optional tail and then the end of the string; return the `doi` group.  The
literal `10`, the `.` matching any character except a newline, the full
digit run (a shorter greedy choice would leave a digit where `/` is
required), the slash, and the greedy suffix run shrunk until the tail
fits. -/
def parseDoiAt (rest : List Char) : Option String :=
  match rest with
  | c1 :: c2 :: c :: rest2 =>
    if c1 = '1' ∧ c2 = '0' ∧ c ≠ '\n' then
      let digits := rest2.takeWhile Char.isDigit
      if 4 ≤ digits.length ∧ digits.length ≤ 9 then
        match rest2.dropWhile Char.isDigit with
        | '/' :: rest3 =>
          let m := rest3.takeWhile isDoiSuffixChar
          match (List.range m.length).find? (fun k => doiTailOk (rest3.drop (m.length - k))) with
          | some k => some ⟨c1 :: c2 :: c :: (digits ++ '/' :: rest3.take (m.length - k))⟩
          | none => none
        | _ => none
      else none
    else none
  | _ => none

/-- Consume `https?://` at the start of the input. -/
def stripHttpScheme : List Char → Option (List Char)
  | 'h' :: 't' :: 't' :: 'p' :: 's' :: ':' :: '/' :: '/' :: r => some r
  | 'h' :: 't' :: 't' :: 'p' :: ':' :: '/' :: '/' :: r => some r
  | _ => none

/-- The candidate end positions of the greedy `\S+`, longest first: the
positions inside the maximal whitespace-free prefix of `r`, in decreasing
order. -/
def doiCandidates (r : List Char) : List Nat :=
  (List.range ((r.takeWhile (fun c => !isSpaceChar c)).length)).map
    (fun k => (r.takeWhile (fun c => !isSpaceChar c)).length - 1 - k)

/-- `PATTERN_DOI_URL.fullmatch` on a decoded URL, returning the `doi`
group: after the scheme, try every split `\S+ / …` from the longest prefix
downwards and return the first complete parse. -/
def doiFullmatch (s : List Char) : Option String :=
  match stripHttpScheme s with
  | none => none
  | some r =>
    ((doiCandidates r).filterMap (fun i =>
      if 1 ≤ i ∧ r.get? i = some '/' then parseDoiAt (r.drop (i + 1)) else none)).head?

/-! ### `requests.utils.unquote` (= `urllib.parse.unquote`)

Percent-escapes are decoded bytewise; maximal runs of `%XX` escapes are
decoded as UTF-8.  The model hand-rolls the UTF-8 decoder; on a malformed
sequence it emits one U+FFFD and resumes after the offending lead byte
(CPython's `errors='replace'` groups maximal invalid subparts, which can
merge some replacement characters; no claim exercises escapes at all). -/

/-- Collect a maximal run of `%XX` escapes into byte values. -/
def percentRun : Nat → List Char → List Nat × List Char
  | 0, cs => ([], cs)
  | fuel + 1, '%' :: h1 :: h2 :: rest =>
    match hexDigitVal h1, hexDigitVal h2 with
    | some v1, some v2 =>
      let (bs, rest2) := percentRun fuel rest
      ((v1 * 16 + v2) :: bs, rest2)
    | _, _ => ([], '%' :: h1 :: h2 :: rest)
  | _, cs => ([], cs)

/-- Is the byte a UTF-8 continuation byte? -/
def isContByte (b : Nat) : Bool := decide (0x80 ≤ b ∧ b < 0xc0)

/-- UTF-8 decoding of a byte list with U+FFFD substitution; fuelled, each
step consuming at least one byte. -/
def utf8DecodeReplaceAux : Nat → List Nat → List Char
  | 0, _ => []
  | _ + 1, [] => []
  | fuel + 1, b :: bs =>
    if b < 0x80 then charOfCodepoint b :: utf8DecodeReplaceAux fuel bs
    else if 0xc2 ≤ b ∧ b ≤ 0xdf then
      match bs with
      | b2 :: bs2 =>
        if isContByte b2 then
          charOfCodepoint ((b - 0xc0) * 64 + (b2 - 0x80)) :: utf8DecodeReplaceAux fuel bs2
        else '�' :: utf8DecodeReplaceAux fuel bs
      | [] => ['�']
    else if 0xe0 ≤ b ∧ b ≤ 0xef then
      match bs with
      | b2 :: b3 :: bs3 =>
        if isContByte b2 && isContByte b3 &&
            !(b = 0xe0 && b2 < 0xa0) && !(b = 0xed && 0x9f < b2) then
          charOfCodepoint ((b - 0xe0) * 4096 + (b2 - 0x80) * 64 + (b3 - 0x80)) ::
            utf8DecodeReplaceAux fuel bs3
        else '�' :: utf8DecodeReplaceAux fuel bs
      | _ => ['�']
    else if 0xf0 ≤ b ∧ b ≤ 0xf4 then
      match bs with
      | b2 :: b3 :: b4 :: bs4 =>
        if isContByte b2 && isContByte b3 && isContByte b4 &&
            !(b = 0xf0 && b2 < 0x90) && !(b = 0xf4 && 0x8f < b2) then
          charOfCodepoint ((b - 0xf0) * 262144 + (b2 - 0x80) * 4096 +
            (b3 - 0x80) * 64 + (b4 - 0x80)) :: utf8DecodeReplaceAux fuel bs4
        else '�' :: utf8DecodeReplaceAux fuel bs
      | _ => ['�']
    else '�' :: utf8DecodeReplaceAux fuel bs

/-- UTF-8 decoding of a byte list with U+FFFD substitution. -/
def utf8DecodeReplace (bs : List Nat) : List Char :=
  utf8DecodeReplaceAux bs.length bs

/-- Fuelled scanner for `pyUnquote`. -/
def unquoteAux : Nat → List Char → List Char
  | 0, cs => cs
  | _ + 1, [] => []
  | fuel + 1, '%' :: rest =>
    (match rest with
    | h1 :: h2 :: _ =>
      match hexDigitVal h1, hexDigitVal h2 with
      | some _, some _ =>
        let (bs, rest3) := percentRun (rest.length + 1) ('%' :: rest)
        utf8DecodeReplace bs ++ unquoteAux fuel rest3
      | _, _ => '%' :: unquoteAux fuel rest
    | _ => '%' :: unquoteAux fuel rest)
  | fuel + 1, c :: rest => c :: unquoteAux fuel rest

/-- Model of `requests.utils.unquote` on character lists. -/
def pyUnquote (cs : List Char) : List Char := unquoteAux cs.length cs

/-- `get_doi_from_url` (`src/scripts/utils/metadata_utils.py` lines 81-106):
URL-decode, then take the `doi` group of a full match of
`PATTERN_DOI_URL`. -/
def get_doi_from_url (url : String) : Option String :=
  doiFullmatch (pyUnquote url.data)

/-- The declarative reading of "the URL contains a DOI-shaped path segment"
(C7): after `http://` or `https://`, a non-empty whitespace-free run, a
slash, then `10`, any non-newline character, 4-9 digits, a slash, a
non-empty suffix over `[-._;()/:\w]`, and a tail consumed by `(/|\?.*)?` at
the end of the string. -/
def DoiShapedIn (s : List Char) : Prop :=
  ∃ (scheme a : List Char) (c : Char) (digits e tail : List Char),
    (scheme = "http://".data ∨ scheme = "https://".data) ∧
    s = scheme ++ a ++ '/' :: '1' :: '0' :: c :: (digits ++ '/' :: (e ++ tail)) ∧
    a ≠ [] ∧ a.all (fun x => !isSpaceChar x) ∧ c ≠ '\n' ∧
    digits.all Char.isDigit ∧ 4 ≤ digits.length ∧ digits.length ≤ 9 ∧
    e ≠ [] ∧ e.all isDoiSuffixChar ∧ doiTailOk tail = true

/-! ## `fetch_article_metadata` (`src/scripts/utils/metadata_utils.py` lines 189-228) -/

/-- A value returned (rather than raised) by `habanero.Crossref().works`:
either a dictionary whose `message` key holds the payload, or something
other than a dictionary (the DOI branch checks `isinstance(res, dict)`). -/
inductive CrResponse where
  | dict (message : Option CrMessage)
  | nonDict
deriving Repr

/-- External collaborators of the metadata resolver: the CrossRef client's
identifier and free-text lookups (`Except Unit` models
`requests.exceptions.HTTPError`), and the page-scraping DOI fallback
`get_doi_from_html(_get_html_from_url(url))`. -/
structure CrossrefEnv where
  worksById : String → Except Unit CrResponse
  worksByQuery : String → Except Unit CrResponse
  pageDoi : String → Option String

/-- `get_doi` (`src/scripts/utils/metadata_utils.py` lines 177-186):
`get_doi_from_url(url) or get_doi_from_html(_get_html_from_url(url))`. -/
def get_doi (env : CrossrefEnv) (url : String) : Option String :=
  (get_doi_from_url url).orElse (fun _ => env.pageDoi url)

/-- The title-search tail of `fetch_article_metadata` (lines 220-228): when a
title is present, `cr.works(query=title).get('message')`; an HTTP error
falls through to the final `return None`; a non-dictionary response would
raise `AttributeError` on `.get`. -/
def crTitleSearch (env : CrossrefEnv) (title : Option String) :
    Except PyErr (Option CrMessage) :=
  match title with
  | some t =>
    match env.worksByQuery t with
    | .ok (.dict msg) => .ok msg
    | .ok .nonDict => .error .attributeError
    | .error _ => .ok none
  | none => .ok none

/-- `fetch_article_metadata` (lines 189-228): raise `ValueError` when both
`title` and `url` are `None`; otherwise try the DOI lookup (falling through
to the title search on an HTTP error or skipping it when no DOI was found),
then the title search. -/
def fetch_article_metadata (env : CrossrefEnv) (title url : Option String) :
    Except PyErr (Option CrMessage) :=
  if title = none ∧ url = none then .error .valueError
  else
    let doi : Option String := match url with
      | some u => get_doi env u
      | none => none
    match doi with
    | some d =>
      match env.worksById d with
      | .ok (.dict msg) => .ok msg
      | .ok .nonDict => .ok none
      | .error _ => crTitleSearch env title
    | none => crTitleSearch env title

/-- The highest sequence-matching similarity between `target` and any title
of any candidate (`0` when there are no titles), mirroring the running
`highest_similarity` of `closest_match`. -/
def bestSimilarity (target : String) (choices : List Candidate) : ℚ :=
  choices.foldl (fun m choice =>
    match choice.title with
    | none => m
    | some titles => titles.foldl (fun m2 t => max m2 (sequenceRatio target t)) m) 0

/-! ## Concrete instances used by witnesses and counterexamples -/

/-- A fixed reddit collaborator response. -/
def envFix : RedditEnv := ⟨fun _ => ""⟩

/-- A CrossRef environment whose lookups all raise HTTP errors and whose
page-scraping fallback finds a DOI. -/
def envCrAllFail : CrossrefEnv :=
  ⟨fun _ => .error (), fun _ => .error (), fun _ => some "10.1/x"⟩

/-- A submission whose selftext is exactly one Markdown link and whose
external URL equals its permalink URL (case 1b). -/
def subWholeLink : Submission :=
  { title := "A Study of X", selftext := "[Example](https://example.com/a)",
    url := "https://www.reddit.com/r/science/comments/1/a_study_of_x/",
    permalink := "/r/science/comments/1/a_study_of_x/",
    link_flair_text := some "Paper", comments := some [],
    is_research := none, paper_type := none, real_url := none, summary := none,
    crosspost_selftext := none, metadata := none, metadata_error := none }

/-- A submission whose selftext has a Markdown link surrounded by prose
(case 1c). -/
def subProse : Submission :=
  { subWholeLink with
    selftext := "some text, [Example](https://example.com/a), more text" }

/-- A submission carrying one of the five non-research flairs. -/
def subPoll : Submission := { subWholeLink with link_flair_text := some "Poll" }

/-- A research row that has never been attempted: `_metadata` is NaN and
`_metadata_error` is `False`. -/
def subFreshRow : Submission :=
  { subWholeLink with
    is_research := some true
    metadata := none
    metadata_error := some false }

/-! # Theorems -/

/-! ## Lemmas about the summary traversal -/

theorem collectBodiesFuel_eq_reversedFuel (fuel : Nat) (cs : List Comment) :
    collectBodiesFuel fuel cs = refCollectBodiesReversedFuel fuel cs := by
  induction fuel generalizing cs with
  | zero => rfl
  | succ n ih =>
    cases cs with
    | nil => rfl
    | cons c queue =>
      rw [collectBodiesFuel, refCollectBodiesReversedFuel]
      by_cases h : c.is_submitter <;> simp [h, ih]

theorem collectBodiesFuel_no_submitter (fuel : Nat) (cs : List Comment)
    (h : ∀ c ∈ cs, c.is_submitter = false) : collectBodiesFuel fuel cs = [] := by
  induction fuel generalizing cs with
  | zero => rfl
  | succ n ih =>
    cases cs with
    | nil => rfl
    | cons c queue =>
      rw [collectBodiesFuel]
      have hc : c.is_submitter = false := h c (by simp)
      simp only [hc, Bool.false_eq_true, if_false]
      exact ih queue (fun x hx => h x (by simp [hx]))

theorem hasSubmitterList_false_root (cs : List Comment)
    (h : Comment.hasSubmitterList cs = false) : ∀ c ∈ cs, c.is_submitter = false := by
  induction cs with
  | nil => intro c hc; cases hc
  | cons c queue ih =>
    rw [Comment.hasSubmitterList] at h
    intro x hx
    rcases List.mem_cons.mp hx with rfl | hx2
    · cases x with
      | mk s b r =>
        rw [Comment.hasSubmitter] at h
        simp only [Bool.or_eq_false_iff] at h
        exact h.1.1
    · simp only [Bool.or_eq_false_iff] at h
      exact ih h.2 x hx2

/-! ## C1 -/

/-- C1 (counterexample): the claim's reference procedure re-inserts replies
at the front of the queue *preserving their original order*; the code's
`deque.extendleft` re-inserts them reversed.  On a submitter comment `A`
with submitter replies `B, C` (in that order) the code yields
`A ∴ C ∴ B` while the claimed procedure yields `A ∴ B ∴ C`, so the Summary
Extractor does not return the result of the claimed procedure. -/
theorem C1_counterexample :
    extract_article_summary_from_comments
        [Comment.mk true "A" [Comment.mk true "B" [], Comment.mk true "C" []]] ≠
      refSummaryOrdered
        [Comment.mk true "A" [Comment.mk true "B" [], Comment.mk true "C" []]] := by
  decide

/-- C1 (amended): for every comment forest, the Summary Extractor returns
exactly the result of the reference procedure *with the popped node's
replies re-inserted at the front of the queue in reversed order* (the
semantics of `deque.extendleft`), joined with the literal separator and
HTML-entity decoded; and a forest with zero submitter-authored comments
(including the empty forest) yields the empty string. -/
theorem C1_prop :
    (∀ cs, extract_article_summary_from_comments cs = refSummaryReversed cs) ∧
    (∀ cs, Comment.hasSubmitterList cs = false →
      extract_article_summary_from_comments cs = "") := by
  constructor
  · intro cs
    unfold extract_article_summary_from_comments refSummaryReversed collectBodies
      refCollectBodiesReversed
    rw [collectBodiesFuel_eq_reversedFuel]
  · intro cs h
    have hnil : collectBodies cs = [] :=
      collectBodiesFuel_no_submitter _ _ (hasSubmitterList_false_root cs h)
    unfold extract_article_summary_from_comments
    rw [hnil]
    rfl

/-- C1 (witness): the amended theorem evaluated on a concrete forest with no
submitter comments. -/
theorem C1_witness :
    extract_article_summary_from_comments [Comment.mk false "x" []] =
        refSummaryReversed [Comment.mk false "x" []] ∧
      extract_article_summary_from_comments [Comment.mk false "x" []] = "" :=
  ⟨C1_prop.1 [Comment.mk false "x" []],
    C1_prop.2 [Comment.mk false "x" []] rfl⟩

/-! ## C10 -/

/-- C10: for every submission whose link flair is one of the five
non-research values, the processing pass writes only `_is_research := False`
and leaves every other field of the record unchanged — no real-URL, summary
or paper-type field is computed — and the enrichment driver's row-selection
mask is false for any record whose `_is_research` is `False`, so no metadata
fetch is ever attempted for it. -/
theorem C10_prop (env : RedditEnv) (s : Submission)
    (h : s.link_flair_text ∈ non_research_flairs.map some) :
    processSubmission env s = .ok { s with is_research := some false } ∧
    (∀ t : Submission, t.is_research = some false → needsMetadataFetch t = false) := by
  constructor
  · unfold processSubmission
    have hd : decide (s.link_flair_text ∉ non_research_flairs.map some) = false := by
      simp only [decide_eq_false_iff_not, not_not]
      exact h
    simp only [hd, Bool.false_eq_true, if_false]
  · intro t ht
    simp [needsMetadataFetch, ht, coerceBoolColumn]

/-- C10 (witness): a concrete `Poll`-flaired submission is marked
non-research, nothing else is derived, and the driver mask excludes it. -/
theorem C10_witness :
    processSubmission envFix subPoll = .ok { subPoll with is_research := some false } ∧
    (∀ t : Submission, t.is_research = some false → needsMetadataFetch t = false) :=
  C10_prop envFix subPoll (by simp [subPoll, subWholeLink, non_research_flairs])

/-! ## C4 -/

/-- C4 (code evaluated at the failing input): `subFreshRow` is selected by
the driver mask, so a metadata attempt is made; when `fetch_article_metadata`
returns `None` (no usable result), the driver leaves `_metadata_error` at
`False` — the failure is *not* recorded — and the very same row is selected
again by the mask on the next run, contradicting the claimed tri-state and
no-retry behavior. -/
theorem C4_prop :
    needsMetadataFetch subFreshRow = true ∧
    fetchMetadataStep none subFreshRow = subFreshRow ∧
    (fetchMetadataStep none subFreshRow).metadata_error = some false ∧
    needsMetadataFetch (fetchMetadataStep none subFreshRow) = true :=
  ⟨rfl, rfl, rfl, rfl⟩

/-! ## C5 -/

/-- C5: when a DOI was found for the URL and the identifier lookup raises an
HTTP error, `fetch_article_metadata` never propagates it: with a title
present it falls through to the free-text title search (whose successful
result it returns, and whose own HTTP error yields `.ok none`), and with no
title it returns `.ok none`. -/
theorem C5_prop (env : CrossrefEnv) (t u d : String)
    (hd : get_doi env u = some d) (he : env.worksById d = .error ()) :
    (env.worksByQuery t = .error () →
      fetch_article_metadata env (some t) (some u) = .ok none) ∧
    (∀ msg, env.worksByQuery t = .ok (.dict msg) →
      fetch_article_metadata env (some t) (some u) = .ok msg) ∧
    fetch_article_metadata env none (some u) = .ok none := by
  refine ⟨fun hq => ?_, fun msg hq => ?_, ?_⟩ <;>
    simp [fetch_article_metadata, crTitleSearch, hd, he, *]

/-- C5 (witness): a CrossRef environment whose identifier and title lookups
both raise HTTP errors yields `.ok none` (with and without a title), not an
exception. -/
theorem C5_witness :
    fetch_article_metadata envCrAllFail (some "T") (some "u") = .ok none ∧
    fetch_article_metadata envCrAllFail none (some "u") = .ok none :=
  ⟨(C5_prop envCrAllFail "T" "u" "10.1/x" rfl rfl).1 rfl,
    (C5_prop envCrAllFail "T" "u" "10.1/x" rfl rfl).2.2⟩

/-! ## C8 -/

theorem crTitleSearch_ne_valueError (env : CrossrefEnv) (title : Option String) :
    crTitleSearch env title ≠ .error .valueError := by
  unfold crTitleSearch
  cases title with
  | none => simp
  | some t =>
    cases hw : env.worksByQuery t with
    | error e => simp [hw]
    | ok r => cases r with
      | dict m => simp [hw]
      | nonDict => simp [hw]

/-- C8: requesting article metadata with both the title and the URL absent
raises `ValueError` immediately (for every environment, i.e. before any
lookup is attempted); when at least one of them is present, the contract
check never fires — no run of the resolver returns the `ValueError`
outcome. -/
theorem C8_prop :
    (∀ env : CrossrefEnv, fetch_article_metadata env none none = .error .valueError) ∧
    (∀ (env : CrossrefEnv) (title url : Option String), title ≠ none ∨ url ≠ none →
      fetch_article_metadata env title url ≠ .error .valueError) := by
  constructor
  · intro env; rfl
  · intro env title url h hEq
    have hcond : ¬(title = none ∧ url = none) := by
      rcases h with h | h <;> exact fun hc => h (by simp [hc.1, hc.2])
    unfold fetch_article_metadata at hEq
    rw [if_neg hcond] at hEq
    rcases hdoi : (match url with | some u => get_doi env u | none => none) with - | dd <;>
      rw [hdoi] at hEq
    · exact crTitleSearch_ne_valueError env title hEq
    · cases hw : env.worksById dd with
      | error e =>
        simp only [hw] at hEq
        exact crTitleSearch_ne_valueError env title hEq
      | ok r => cases r with
        | dict msg => simp [hw] at hEq
        | nonDict => simp [hw] at hEq

/-- C8 (witness): the contract error at the concrete empty request, and its
absence when a title is supplied. -/
theorem C8_witness :
    fetch_article_metadata envCrAllFail none none = .error .valueError ∧
    fetch_article_metadata envCrAllFail (some "T") none ≠ .error .valueError :=
  ⟨C8_prop.1 envCrAllFail,
    C8_prop.2 envCrAllFail (some "T") none (.inl (by simp))⟩

/-! ## C2 -/

/-- C2: for every submission whose external URL equals
`'https://www.reddit.com' + permalink` and whose selftext consists of
exactly one Markdown link matching the whole selftext (the branch condition
of case 1b: the first extracted link reconstructs the entire selftext), the
policy sets the real URL to that link's target and the summary to the
Summary Extractor's output over the submission's comments. -/
theorem C2_prop (env : RedditEnv) (s : Submission) (l u : String)
    (rest : List (String × String)) (cs : List Comment)
    (hurl : s.url = "https://www.reddit.com" ++ s.permalink)
    (hmd : extract_markdown_urls s.selftext = (l, u) :: rest)
    (hself : s.selftext = "[" ++ l ++ "](" ++ u ++ ")")
    (hcom : s.comments = some cs) :
    resolveUrlAndSummary env s =
      .ok { s with real_url := some (some u),
                   summary := some (extract_article_summary_from_comments cs) } := by
  simp only [resolveUrlAndSummary, hurl, hmd, hcom, if_pos]
  rw [if_pos hself]

/-- C2 (witness): the concrete submission whose selftext is exactly
`[Example](https://example.com/a)` resolves to real URL
`https://example.com/a` and the extractor summary of its comments. -/
theorem C2_witness :
    resolveUrlAndSummary envFix subWholeLink =
      .ok { subWholeLink with
            real_url := some (some "https://example.com/a"),
            summary := some (extract_article_summary_from_comments []) } :=
  C2_prop envFix subWholeLink "Example" "https://example.com/a" [] []
    rfl rfl rfl rfl

/-! ## C3 -/

/-- C3: for every submission whose external URL equals
`'https://www.reddit.com' + permalink` and whose selftext contains Markdown
links but is not exactly the single whole-text link (case 1c), the policy
scans the Markdown links in order and picks the first one whose label,
stripped of leading and trailing `*` and `_`, equals the link's URL, falling
back to the first Markdown link when none qualifies; the summary is the raw
selftext. -/
theorem C3_prop (env : RedditEnv) (s : Submission) (d u : String)
    (rest : List (String × String))
    (hurl : s.url = "https://www.reddit.com" ++ s.permalink)
    (hmd : extract_markdown_urls s.selftext = (d, u) :: rest)
    (hne : s.selftext ≠ "[" ++ d ++ "](" ++ u ++ ")") :
    resolveUrlAndSummary env s =
      .ok { s with
        real_url := some (some (match ((d, u) :: rest).find?
            (fun du => stripStarUnderscore du.1 = du.2) with
          | some du => du.2
          | none => u)),
        summary := some s.selftext } := by
  simp only [resolveUrlAndSummary, hurl, hmd, if_pos]
  rw [if_neg hne]

/-- C3 (witness): the concrete submission with selftext
`some text, [Example](https://example.com/a), more text` (label `Example`
differs from the URL) resolves via the fallback to the first Markdown link,
with the raw selftext as summary. -/
theorem C3_witness :
    resolveUrlAndSummary envFix subProse =
      .ok { subProse with
            real_url := some (some "https://example.com/a"),
            summary := some subProse.selftext } :=
  C3_prop envFix subProse "Example" "https://example.com/a" [] rfl rfl
    (by decide)

/-! ## C9 -/

/-- C9: the URL resolution policy is deterministic and idempotent.  First
conjunct: a second run on a policy output reproduces that output unchanged
(the derived `_real_url`/`_summary` fields do not change).  Second conjunct:
the outcome's `_real_url`/`_summary` (and its error, if any) depend only on
`title`, `selftext`, `url`, `permalink`, `comments` and the fixed
external-collaborator environment — two submissions agreeing on those inputs
get identical derived values. -/
theorem C9_prop :
    (∀ (env : RedditEnv) (s t : Submission), resolveUrlAndSummary env s = .ok t →
      resolveUrlAndSummary env t = .ok t) ∧
    (∀ (env : RedditEnv) (s t : Submission), s.title = t.title → s.selftext = t.selftext →
      s.url = t.url → s.permalink = t.permalink → s.comments = t.comments →
      Except.map (fun r => (r.real_url, r.summary)) (resolveUrlAndSummary env s) =
        Except.map (fun r => (r.real_url, r.summary)) (resolveUrlAndSummary env t)) := by
  constructor
  · intro env s t h
    unfold resolveUrlAndSummary at h ⊢
    split at h
    next hc =>
      split at h
      next heq =>
        simp only [Except.ok.injEq] at h
        subst h
        simp only [hc, heq, if_pos]
      next d u rest heq =>
        split at h
        next hself =>
          split at h
          next hcom => exact absurd h (by simp)
          next cs hcom =>
            simp only [Except.ok.injEq] at h
            subst h
            simp only [hc, heq, if_pos]
            rw [if_pos hself]
            simp only [hcom]
        next hself =>
          simp only [Except.ok.injEq] at h
          subst h
          simp only [hc, heq, if_pos]
          rw [if_neg hself]
    next hc =>
      split at h
      next hr =>
        simp only [Except.ok.injEq] at h
        subst h
        simp [hc, hr]
      next hr =>
        simp only [Except.ok.injEq] at h
        subst h
        simp [hc, hr]
  · intro env s t h1 h2 h3 h4 h5
    unfold resolveUrlAndSummary
    rw [← h1, ← h2, ← h3, ← h4, ← h5]
    by_cases hc : s.url = "https://www.reddit.com" ++ s.permalink
    · simp only [hc, if_pos]
      cases hmd : extract_markdown_urls s.selftext with
      | nil => simp [Except.map]
      | cons du rest =>
        obtain ⟨d, u⟩ := du
        simp only [hmd]
        by_cases hself : s.selftext = "[" ++ d ++ "](" ++ u ++ ")"
        · rw [if_pos hself, if_pos hself]
          cases hcom : s.comments with
          | none => simp [Except.map]
          | some cs => simp [Except.map]
        · rw [if_neg hself, if_neg hself]
          simp [Except.map]
    · rw [if_neg hc, if_neg hc]
      by_cases hr : s.url.startsWith "/r/"
      · simp [hr, Except.map]
      · simp [hr, Except.map]

/-- C9 (witness): a second run of the policy on the concrete resolved
submission reproduces it, and two runs on equal inputs agree. -/
theorem C9_witness :
    resolveUrlAndSummary envFix
        { subWholeLink with
          real_url := some (some "https://example.com/a")
          summary := some (extract_article_summary_from_comments []) } =
      .ok { subWholeLink with
            real_url := some (some "https://example.com/a")
            summary := some (extract_article_summary_from_comments []) } ∧
    Except.map (fun r => (r.real_url, r.summary)) (resolveUrlAndSummary envFix subWholeLink) =
      Except.map (fun r => (r.real_url, r.summary)) (resolveUrlAndSummary envFix subWholeLink) :=
  ⟨C9_prop.1 envFix subWholeLink _ (by rfl),
    C9_prop.2 envFix subWholeLink subWholeLink rfl rfl rfl rfl rfl⟩

/-! ## C6: lemmas about the `closest_match` fold -/

theorem closestFoldInner_snd (target : String) (titles : List String)
    (acc : Option Candidate × ℚ) (choice : Candidate) :
    (titles.foldl (fun acc2 t =>
        let similarity := sequenceRatio target t
        if acc2.2 < similarity then (some choice, similarity) else acc2) acc).2 =
      titles.foldl (fun m2 t => max m2 (sequenceRatio target t)) acc.2 := by
  induction titles generalizing acc with
  | nil => rfl
  | cons t ts ih =>
    simp only [List.foldl_cons]
    rw [ih]
    congr 1
    by_cases h : acc.2 < sequenceRatio target t
    · simp [h, max_eq_right (le_of_lt h)]
    · simp [h, max_eq_left (not_lt.mp h)]

theorem closestFoldOuter_snd (target : String) (choices : List Candidate)
    (acc : Option Candidate × ℚ) :
    (choices.foldl (fun acc choice =>
        match choice.title with
        | none => acc
        | some titles => titles.foldl (fun acc2 t =>
            let similarity := sequenceRatio target t
            if acc2.2 < similarity then (some choice, similarity) else acc2) acc) acc).2 =
      choices.foldl (fun m choice =>
        match choice.title with
        | none => m
        | some titles => titles.foldl (fun m2 t => max m2 (sequenceRatio target t)) m) acc.2 := by
  induction choices generalizing acc with
  | nil => rfl
  | cons c cs ih =>
    simp only [List.foldl_cons]
    rw [ih]
    congr 1
    cases hti : c.title with
    | none => simp [hti]
    | some ts =>
      simp only [hti]
      exact closestFoldInner_snd target ts acc c

theorem closestFoldInner_inv (target : String) (P : Candidate → Prop)
    (choice : Candidate) (tsAll : List String) (hP : P choice)
    (hti : choice.title = some tsAll) :
    ∀ (ts : List String), (∀ t ∈ ts, t ∈ tsAll) →
    ∀ (acc : Option Candidate × ℚ),
    ((acc.1 = none ∧ acc.2 = 0) ∨ ∃ c, acc.1 = some c ∧ P c ∧ ∃ ts2 t, c.title = some ts2 ∧
      t ∈ ts2 ∧ sequenceRatio target t = acc.2) →
    (((ts.foldl (fun acc2 t =>
        let similarity := sequenceRatio target t
        if acc2.2 < similarity then (some choice, similarity) else acc2) acc)).1 = none ∧
      ((ts.foldl (fun acc2 t =>
        let similarity := sequenceRatio target t
        if acc2.2 < similarity then (some choice, similarity) else acc2) acc)).2 = 0) ∨
      ∃ c, ((ts.foldl (fun acc2 t =>
        let similarity := sequenceRatio target t
        if acc2.2 < similarity then (some choice, similarity) else acc2) acc)).1 = some c ∧
        P c ∧ ∃ ts2 t, c.title = some ts2 ∧ t ∈ ts2 ∧ sequenceRatio target t =
          ((ts.foldl (fun acc2 t =>
            let similarity := sequenceRatio target t
            if acc2.2 < similarity then (some choice, similarity) else acc2) acc)).2 := by
  intro ts
  induction ts with
  | nil => intro _ acc h; exact h
  | cons t ts2 ih =>
    intro hmem acc hacc
    simp only [List.foldl_cons]
    apply ih (fun x hx => hmem x (by simp [hx]))
    by_cases hlt : acc.2 < sequenceRatio target t
    · right
      exact ⟨choice, by simp [hlt], hP, tsAll, t, hti, hmem t (by simp), by simp [hlt]⟩
    · simpa [hlt] using hacc

theorem closestFoldOuter_inv (target : String) (P : Candidate → Prop) :
    ∀ (choices : List Candidate), (∀ c ∈ choices, P c) →
    ∀ (acc : Option Candidate × ℚ),
    ((acc.1 = none ∧ acc.2 = 0) ∨ ∃ c, acc.1 = some c ∧ P c ∧ ∃ ts2 t, c.title = some ts2 ∧
      t ∈ ts2 ∧ sequenceRatio target t = acc.2) →
    (((choices.foldl (fun acc choice =>
        match choice.title with
        | none => acc
        | some titles => titles.foldl (fun acc2 t =>
            let similarity := sequenceRatio target t
            if acc2.2 < similarity then (some choice, similarity) else acc2) acc) acc)).1 = none ∧
      ((choices.foldl (fun acc choice =>
        match choice.title with
        | none => acc
        | some titles => titles.foldl (fun acc2 t =>
            let similarity := sequenceRatio target t
            if acc2.2 < similarity then (some choice, similarity) else acc2) acc) acc)).2 = 0) ∨
      ∃ c, ((choices.foldl (fun acc choice =>
        match choice.title with
        | none => acc
        | some titles => titles.foldl (fun acc2 t =>
            let similarity := sequenceRatio target t
            if acc2.2 < similarity then (some choice, similarity) else acc2) acc) acc)).1 = some c ∧
        P c ∧ ∃ ts2 t, c.title = some ts2 ∧ t ∈ ts2 ∧ sequenceRatio target t =
          ((choices.foldl (fun acc choice =>
            match choice.title with
            | none => acc
            | some titles => titles.foldl (fun acc2 t =>
                let similarity := sequenceRatio target t
                if acc2.2 < similarity then (some choice, similarity) else acc2) acc) acc)).2 := by
  intro choices
  induction choices with
  | nil => intro _ acc h; exact h
  | cons c cs ih =>
    intro hmem acc hacc
    simp only [List.foldl_cons]
    apply ih (fun x hx => hmem x (by simp [hx]))
    cases hti : c.title with
    | none => simpa [hti] using hacc
    | some ts =>
      simp only [hti]
      exact closestFoldInner_inv target P c ts (hmem c (by simp)) hti ts (fun _ h => h) acc hacc

theorem foldlMax_le_init (target : String) (ts : List String) (m : ℚ) :
    m ≤ ts.foldl (fun m2 t => max m2 (sequenceRatio target t)) m := by
  induction ts generalizing m with
  | nil => exact le_refl m
  | cons t ts2 ih => exact le_trans (le_max_left m (sequenceRatio target t)) (ih _)

theorem ratio_le_foldlMax (target : String) (ts : List String) (t : String)
    (ht : t ∈ ts) (m : ℚ) :
    sequenceRatio target t ≤ ts.foldl (fun m2 t => max m2 (sequenceRatio target t)) m := by
  induction ts generalizing m with
  | nil => cases ht
  | cons t2 ts2 ih =>
    rcases List.mem_cons.mp ht with rfl | h2
    · exact le_trans (le_max_right m (sequenceRatio target t)) (foldlMax_le_init target ts2 _)
    · exact ih h2 _

theorem outerMax_le_init (target : String) (choices : List Candidate) (m : ℚ) :
    m ≤ choices.foldl (fun m choice =>
      match choice.title with
      | none => m
      | some titles => titles.foldl (fun m2 t => max m2 (sequenceRatio target t)) m) m := by
  induction choices generalizing m with
  | nil => exact le_refl m
  | cons c cs ih =>
    refine le_trans ?_ (ih _)
    cases hti : c.title with
    | none => simp [hti]
    | some ts =>
      simp only [hti]
      exact foldlMax_le_init target ts m

theorem ratio_le_outerMax (target : String) (choices : List Candidate) (c : Candidate)
    (hc : c ∈ choices) (ts : List String) (hti : c.title = some ts) (t : String)
    (ht : t ∈ ts) (m : ℚ) :
    sequenceRatio target t ≤ choices.foldl (fun m choice =>
      match choice.title with
      | none => m
      | some titles => titles.foldl (fun m2 t => max m2 (sequenceRatio target t)) m) m := by
  induction choices generalizing m with
  | nil => cases hc
  | cons c2 cs ih =>
    rcases List.mem_cons.mp hc with rfl | h2
    · refine le_trans ?_ (outerMax_le_init target cs _)
      simp only [hti]
      exact ratio_le_foldlMax target ts t ht m
    · exact ih h2 _

theorem closest_match_spec (target : String) (choices : List Candidate) :
    ∃ B : Option Candidate × ℚ,
      closest_match target choices (4 / 5 : ℚ) =
        (if (4 / 5 : ℚ) ≤ B.2 then B.1 else none) ∧
      B.2 = bestSimilarity target choices ∧
      ((B.1 = none ∧ B.2 = 0) ∨ ∃ c, B.1 = some c ∧ c ∈ choices ∧
        ∃ ts t, c.title = some ts ∧ t ∈ ts ∧ sequenceRatio target t = B.2) :=
  ⟨choices.foldl (fun acc choice =>
      match choice.title with
      | none => acc
      | some titles => titles.foldl (fun acc2 t =>
          let similarity := sequenceRatio target t
          if acc2.2 < similarity then (some choice, similarity) else acc2) acc)
      ((none : Option Candidate), (0 : ℚ)),
    by unfold closest_match; rfl,
    closestFoldOuter_snd target choices ((none : Option Candidate), (0 : ℚ)),
    closestFoldOuter_inv target (fun c => c ∈ choices) choices (fun _ h => h)
      ((none : Option Candidate), (0 : ℚ)) (Or.inl ⟨rfl, rfl⟩)⟩

/-- C6: with the call-site threshold `0.8`, `closest_match` returns a
candidate only if it is one of the choices, one of its titles attains the
highest sequence-matching similarity to the target, and that highest
similarity is at least `0.8`; whenever the highest similarity reaches `0.8`
a candidate attaining it is returned; when no candidate reaches `0.8` the
result is `None`; and the highest similarity really is an upper bound over
every candidate title's similarity. -/
theorem C6_prop (target : String) (choices : List Candidate) :
    (∀ c, closest_match target choices (4 / 5 : ℚ) = some c →
      c ∈ choices ∧ (4 / 5 : ℚ) ≤ bestSimilarity target choices ∧
      ∃ ts t, c.title = some ts ∧ t ∈ ts ∧
        sequenceRatio target t = bestSimilarity target choices) ∧
    ((4 / 5 : ℚ) ≤ bestSimilarity target choices →
      ∃ c, closest_match target choices (4 / 5 : ℚ) = some c ∧
        ∃ ts t, c.title = some ts ∧ t ∈ ts ∧
          sequenceRatio target t = bestSimilarity target choices) ∧
    (bestSimilarity target choices < 4 / 5 →
      closest_match target choices (4 / 5 : ℚ) = none) ∧
    (∀ c ∈ choices, ∀ ts t, c.title = some ts → t ∈ ts →
      sequenceRatio target t ≤ bestSimilarity target choices) := by
  obtain ⟨B, hEq, hsnd, hinv⟩ := closest_match_spec target choices
  refine ⟨?_, ?_, ?_, ?_⟩
  · intro c hc
    rw [hEq] at hc
    by_cases hcond : (4 / 5 : ℚ) ≤ B.2
    · rw [if_pos hcond] at hc
      rcases hinv with ⟨h1, _⟩ | ⟨c2, hB1, hmem, ts, t, hti, hts, hrt⟩
      · rw [h1] at hc; cases hc
      · rw [hB1] at hc
        obtain rfl : c2 = c := by injection hc
        exact ⟨hmem, hsnd ▸ hcond, ts, t, hti, hts, hsnd ▸ hrt⟩
    · rw [if_neg hcond] at hc; cases hc
  · intro hbig
    have hcond : (4 / 5 : ℚ) ≤ B.2 := hsnd ▸ hbig
    rw [hEq, if_pos hcond]
    rcases hinv with ⟨_, h2⟩ | ⟨c, hB1, _, ts, t, hti, hts, hrt⟩
    · exfalso
      rw [h2] at hcond
      norm_num at hcond
    · exact ⟨c, by rw [hB1], ts, t, hti, hts, hsnd ▸ hrt⟩
  · intro hsmall
    have hcond : ¬ (4 / 5 : ℚ) ≤ B.2 := by rw [hsnd]; exact not_le.mpr hsmall
    rw [hEq, if_neg hcond]
  · intro c hc ts t hti ht
    exact ratio_le_outerMax target choices c hc ts hti t ht 0

/-! ### Concrete similarity evaluations for the C6 witness -/

theorem ratioAA : sequenceRatio "A Study of X" "A Study of X" = 1 := by
  have hl : "A Study of X".data.length = 12 := by decide
  have hm : matchingSum "A Study of X".data "A Study of X".data (12 + 12 + 1) 0 12 0 12 = 12 := by
    decide
  simp only [sequenceRatio, hl, hm]
  norm_num

theorem ratioAU : sequenceRatio "A Study of X" "Unrelated Topic" = 4 / 27 := by
  have hl : "A Study of X".data.length = 12 := by decide
  have hl2 : "Unrelated Topic".data.length = 15 := by decide
  have hm : matchingSum "A Study of X".data "Unrelated Topic".data (12 + 15 + 1) 0 12 0 15 = 2 := by
    decide
  simp only [sequenceRatio, hl, hl2, hm]
  norm_num

theorem bestSimBoth : bestSimilarity "A Study of X"
    [⟨some ["A Study of X"], 0⟩, ⟨some ["Unrelated Topic"], 1⟩] = 1 := by
  simp only [bestSimilarity, List.foldl_cons, List.foldl_nil]
  rw [ratioAA, ratioAU]
  norm_num

theorem bestSimLone : bestSimilarity "A Study of X" [⟨some ["Unrelated Topic"], 1⟩] = 4 / 27 := by
  simp only [bestSimilarity, List.foldl_cons, List.foldl_nil]
  rw [ratioAU]
  norm_num

/-- C6 (witness): against the target `A Study of X`, with candidates titled
`A Study of X` (similarity `1`) and `Unrelated Topic` (similarity `4/27`), a
highest-similarity candidate is returned; with only the `Unrelated Topic`
candidate the result is `None`. -/
theorem C6_witness :
    (∃ c, closest_match "A Study of X"
        [⟨some ["A Study of X"], 0⟩, ⟨some ["Unrelated Topic"], 1⟩] (4 / 5 : ℚ) = some c ∧
      ∃ ts t, c.title = some ts ∧ t ∈ ts ∧
        sequenceRatio "A Study of X" t =
          bestSimilarity "A Study of X"
            [⟨some ["A Study of X"], 0⟩, ⟨some ["Unrelated Topic"], 1⟩]) ∧
    closest_match "A Study of X" [⟨some ["Unrelated Topic"], 1⟩] (4 / 5 : ℚ) = none :=
  ⟨(C6_prop "A Study of X"
      [⟨some ["A Study of X"], 0⟩, ⟨some ["Unrelated Topic"], 1⟩]).2.1
      (by rw [bestSimBoth]; norm_num),
    (C6_prop "A Study of X" [⟨some ["Unrelated Topic"], 1⟩]).2.2.1
      (by rw [bestSimLone]; norm_num)⟩

/-! ## C7: lemmas about the DOI matcher -/

theorem all_take_of_le_takeWhile (p : Char → Bool) (l : List Char) (n : Nat)
    (h : n ≤ (l.takeWhile p).length) : ∀ x ∈ l.take n, p x = true := by
  have h1 : l.take n <+: l := List.take_prefix n l
  have h2 : l.takeWhile p <+: l := List.takeWhile_prefix p
  have hlen : (l.take n).length ≤ (l.takeWhile p).length := by
    simp only [List.length_take]
    omega
  have hpre : l.take n <+: l.takeWhile p := List.prefix_of_prefix_length_le h1 h2 hlen
  intro x hx
  exact List.mem_takeWhile_imp (hpre.subset hx)

theorem stripHttpScheme_sound (s r : List Char) (h : stripHttpScheme s = some r) :
    s = "http://".data ++ r ∨ s = "https://".data ++ r := by
  unfold stripHttpScheme at h
  split at h
  · right
    injection h with h2
    rw [← h2]
    rfl
  · left
    injection h with h2
    rw [← h2]
    rfl
  · cases h

theorem drop_cons_of_get (l : List Char) (i : Nat) (c : Char) (h : l.get? i = some c) :
    l.drop i = c :: l.drop (i + 1) := by
  obtain ⟨hlt, hget⟩ := List.get?_eq_some.mp h
  rw [List.drop_eq_getElem_cons hlt]
  simp only [List.get_eq_getElem] at hget
  rw [hget]

theorem parseDoiAt_sound (rest : List Char) (d : String) (h : parseDoiAt rest = some d) :
    ∃ (c : Char) (digits e tail : List Char),
      rest = '1' :: '0' :: c :: (digits ++ '/' :: (e ++ tail)) ∧
      c ≠ '\n' ∧ digits.all Char.isDigit = true ∧ 4 ≤ digits.length ∧ digits.length ≤ 9 ∧
      e ≠ [] ∧ e.all isDoiSuffixChar = true ∧ doiTailOk tail = true := by
  unfold parseDoiAt at h
  split at h
  case h_2 => exact absurd h (by simp)
  case h_1 c1 c2 c rest2 =>
    split at h
    next hcnd =>
      obtain ⟨rfl, rfl, hc⟩ := hcnd
      split at h
      case h_1 rest3 heq =>
        dsimp only at h
        split at h
        next hlen =>
          split at h
          case h_1 k hfind =>
            refine ⟨c, rest2.takeWhile Char.isDigit,
              rest3.take ((rest3.takeWhile isDoiSuffixChar).length - k),
              rest3.drop ((rest3.takeWhile isDoiSuffixChar).length - k), ?_, hc, ?_, hlen.1,
              hlen.2, ?_, ?_, ?_⟩
            · have hr2 : rest2.takeWhile Char.isDigit ++ ('/' :: rest3) = rest2 := by
                rw [← heq]
                exact List.takeWhile_append_dropWhile Char.isDigit rest2
              have hr3 : rest3.take ((rest3.takeWhile isDoiSuffixChar).length - k) ++
                  rest3.drop ((rest3.takeWhile isDoiSuffixChar).length - k) = rest3 :=
                List.take_append_drop _ rest3
              rw [hr3, hr2]
            · rw [List.all_eq_true]
              intro x hx
              exact List.mem_takeWhile_imp hx
            · have hk : k < (rest3.takeWhile isDoiSuffixChar).length :=
                List.mem_range.mp (List.mem_of_find?_eq_some hfind)
              have hm : (rest3.takeWhile isDoiSuffixChar).length ≤ rest3.length :=
                (List.takeWhile_prefix isDoiSuffixChar).length_le
              have hlt : (rest3.take ((rest3.takeWhile isDoiSuffixChar).length - k)).length =
                  (rest3.takeWhile isDoiSuffixChar).length - k := by
                simp only [List.length_take]
                omega
              intro hnil
              rw [hnil] at hlt
              simp at hlt
              omega
            · rw [List.all_eq_true]
              have hk : k < (rest3.takeWhile isDoiSuffixChar).length :=
                List.mem_range.mp (List.mem_of_find?_eq_some hfind)
              exact all_take_of_le_takeWhile isDoiSuffixChar rest3 _ (by omega)
            · have := List.find?_some hfind
              simpa using this
          case h_2 => exact absurd h (by simp)
        next hlen => exact absurd h (by simp)
      case h_2 => exact absurd h (by simp)
    next hcnd => exact absurd h (by simp)

theorem doiFullmatch_sound (s : List Char) (d : String) (h : doiFullmatch s = some d) :
    DoiShapedIn s := by
  unfold doiFullmatch at h
  split at h
  case h_1 => cases h
  case h_2 r heq =>
    have hmem : d ∈ (doiCandidates r).filterMap (fun i =>
        if 1 ≤ i ∧ r.get? i = some '/' then parseDoiAt (r.drop (i + 1)) else none) :=
      List.mem_of_mem_head? (Option.mem_def.mpr h)
    obtain ⟨i, himem, hgi⟩ := List.mem_filterMap.mp hmem
    by_cases hcnd : 1 ≤ i ∧ r.get? i = some '/'
    case neg => rw [if_neg hcnd] at hgi; cases hgi
    case pos =>
    rw [if_pos hcnd] at hgi
    obtain ⟨hi1, hislash⟩ := hcnd
    obtain ⟨c, digits, e, tail, hrest, hc, hdig, h4, h9, hene, heall, htail⟩ :=
      parseDoiAt_sound _ _ hgi
    obtain ⟨k, hk, hik⟩ := List.mem_map.mp himem
    have hkw := List.mem_range.mp hk
    have hiw : i < (r.takeWhile (fun c => !isSpaceChar c)).length := by omega
    have hilen : i < r.length := (List.get?_eq_some.mp hislash).1
    have hsplit : r.take i ++ ('/' :: r.drop (i + 1)) = r := by
      rw [← drop_cons_of_get r i '/' hislash]
      exact List.take_append_drop i r
    rcases stripHttpScheme_sound s r heq with hs | hs
    · refine ⟨"http://".data, r.take i, c, digits, e, tail, Or.inl rfl, ?_, ?_, ?_, hc, hdig,
        h4, h9, hene, heall, htail⟩
      · conv_lhs => rw [hs, ← hsplit, hrest]
        simp [List.append_assoc]
      · intro hnil
        have : (r.take i).length = 0 := by rw [hnil]; rfl
        rw [List.length_take] at this
        omega
      · rw [List.all_eq_true]
        exact all_take_of_le_takeWhile (fun c => !isSpaceChar c) r i (by omega)
    · refine ⟨"https://".data, r.take i, c, digits, e, tail, Or.inr rfl, ?_, ?_, ?_, hc, hdig,
        h4, h9, hene, heall, htail⟩
      · conv_lhs => rw [hs, ← hsplit, hrest]
        simp [List.append_assoc]
      · intro hnil
        have : (r.take i).length = 0 := by rw [hnil]; rfl
        rw [List.length_take] at this
        omega
      · rw [List.all_eq_true]
        exact all_take_of_le_takeWhile (fun c => !isSpaceChar c) r i (by omega)

/-- C7: DOI extraction first URL-decodes and then matches the fixed DOI
pattern: the URL `https://doi.org/10.1234/abcd.5678` yields exactly
`10.1234/abcd.5678`, and whenever any DOI is returned, the decoded URL
contains a DOI-shaped path segment (`.../10.<4-9 digits>/<suffix>` after an
`http(s)` scheme) — equivalently, a URL containing no DOI-shaped path
segment yields `None`. -/
theorem C7_prop :
    get_doi_from_url "https://doi.org/10.1234/abcd.5678" = some "10.1234/abcd.5678" ∧
    ∀ (url d : String), get_doi_from_url url = some d → DoiShapedIn (pyUnquote url.data) := by
  constructor
  · decide
  · intro url d h
    exact doiFullmatch_sound (pyUnquote url.data) d h

/-- C7 (witness): the DOI-shape of the decoded example URL, obtained from
the theorem at the concrete input; and the concrete no-DOI URL yielding
`None`. -/
theorem C7_witness :
    DoiShapedIn (pyUnquote "https://doi.org/10.1234/abcd.5678".data) ∧
    get_doi_from_url "https://example.com/article" = none :=
  ⟨C7_prop.2 "https://doi.org/10.1234/abcd.5678" "10.1234/abcd.5678" C7_prop.1,
    by decide⟩
